import Mathlib

/-!
Shallow embedding of the `pmf` repository: the hierarchical Poisson matrix
factorization model (`src/pmf/model/hpmf.py`) and its coordinate-ascent
variational inference engine (`src/pmf/vi/vi.py`).

Machine floats are modelled as exact rationals.  The transcendental library
functions the code calls (`numpy.exp`, `numpy.log`, `scipy.special.digamma`,
`numpy.expm1`, `scipy.special.gammaln`) are modelled as an abstract bundle of
functions `ℚ → ℚ` (`NumLib`): every definition below is parametric in that
bundle, and theorems that need analytic facts about the real functions (for
example that the exponential is strictly positive, or that `expm1` is negative
on negative arguments) take those facts as explicit hypotheses.

Pseudo-randomness (`numpy.random.gamma` draws) is modelled by passing the
drawn values in as explicit function arguments: a run of the Python code under
a fixed seed corresponds to one choice of those arguments.
-/

namespace PmfRepo

/-- Abstract interface for the transcendental routines used by the code. -/
structure NumLib where
  exp : ℚ → ℚ
  log : ℚ → ℚ
  digamma : ℚ → ℚ
  expm1 : ℚ → ℚ
  gammaln : ℚ → ℚ

/-- Python-level failures surfaced by the model code: `ValueError` raised by
`HPMF.pmf`'s explicit type checks, `TypeError` from operating on an unset
(`None`) factor matrix, and `IndexError` from numpy array indexing. -/
inductive PyErr where
  | valueError
  | typeError
  | indexError
deriving DecidableEq

/-- The `HPMF` model object (`src/pmf/model/hpmf.py`, `HPMF.__init__`).
`U`, `I`, `K` are `nusers`, `nitems`, `latent_dimensions`.  The factor
matrices `alpha`, `beta` and the simulated scales `zeta_alpha`, `zeta_beta`
start as Python `None`, modelled by `Option`. -/
structure HPMF (U I K : ℕ) where
  alpha_shape_prior : ℚ
  beta_shape_prior : ℚ
  berpo : Bool
  zeta_alpha_shape_prior : ℚ
  zeta_beta_shape_prior : ℚ
  zeta_alpha_rate_prior : ℚ
  zeta_beta_rate_prior : ℚ
  alpha : Option (Fin U → Fin K → ℚ)
  beta : Option (Fin I → Fin K → ℚ)
  zeta_alpha : Option (Fin U → ℚ)
  zeta_beta : Option (Fin I → ℚ)

/-- numpy indexing of an axis of length `n` with a Python `int`: indices in
`[0, n)` are taken as is, indices in `[-n, 0)` wrap to `n + x`, anything else
raises `IndexError`. -/
def npIndex (n : ℕ) (x : ℤ) : Except PyErr (Fin n) :=
  if h : 0 ≤ x ∧ x < (n : ℤ) then
    .ok ⟨x.toNat, by omega⟩
  else if h2 : -(n : ℤ) ≤ x ∧ x < 0 then
    .ok ⟨(x + (n : ℤ)).toNat, by omega⟩
  else
    .error .indexError

/-- Model of `scipy.stats.poisson.pmf(count, rate)` for a non-negative integer count,
written with the abstract exponential: `rate ^ c * exp (-rate) / c!`. -/
def poissonPmf (P : NumLib) (c : ℕ) (rate : ℚ) : ℚ :=
  rate ^ c * P.exp (-rate) / (Nat.factorial c : ℚ)

/-- Result of `HPMF.pmf`: a scalar when both indices were supplied, a full
`U × I` matrix otherwise. -/
inductive PmfValue (U I : ℕ) where
  | scalar (q : ℚ)
  | matrix (mat : Fin U → Fin I → ℚ)

/-- Model of `HPMF.pmf` (`src/pmf/model/hpmf.py`, lines 54-80).  The Python type checks
on `user`/`item` (raising `ValueError` for non-`int`s) are satisfied by the
`Option ℤ` argument types.  When both indices are present the rate is
`sum(alpha[user] * beta[item])`, with numpy index semantics and a `TypeError`
if a factor matrix is still `None`; otherwise it is the full matrix
`alpha @ beta.T`.  In Bernoulli-Poisson mode the result is `1 - exp(-rate)`,
otherwise the Poisson pmf at `count` (defaulted to 1). -/
def pmf (P : NumLib) {U I K : ℕ} (m : HPMF U I K) (user item : Option ℤ)
    (count : Option ℕ) : Except PyErr (PmfValue U I) :=
  match user, item with
  | some u, some i =>
    match m.alpha with
    | none => .error .typeError
    | some A =>
      match npIndex U u with
      | .error e => .error e
      | .ok u' =>
        match m.beta with
        | none => .error .typeError
        | some B =>
          match npIndex I i with
          | .error e => .error e
          | .ok i' =>
            let poisson_rate : ℚ := ∑ k, A u' k * B i' k
            if m.berpo then
              .ok (.scalar (1 - P.exp (-poisson_rate)))
            else
              .ok (.scalar (poissonPmf P (count.getD 1) poisson_rate))
  | _, _ =>
    match m.alpha, m.beta with
    | some A, some B =>
      let poisson_rate : Fin U → Fin I → ℚ := fun u i => ∑ k, A u k * B i k
      if m.berpo then
        .ok (.matrix (fun u i => 1 - P.exp (-(poisson_rate u i))))
      else
        .ok (.matrix (fun u i => poissonPmf P (count.getD 1) (poisson_rate u i)))
    | _, _ => .error .typeError

/-- Warnings emitted by `HPMF.write_model_state` when a factor matrix has not
been set by inference yet. -/
inductive WriteMsg where
  | alphaUnset
  | betaUnset
deriving DecidableEq

/-- One output line of `HPMF.write_model_state`: the label joined with the `K`
factor values by commas. -/
def formatRow {K : ℕ} (label : String) (row : Fin K → ℚ) : String :=
  String.intercalate "," (label :: List.ofFn (fun k => toString (row k)))

/-- Model of `HPMF.write_model_state` (`src/pmf/model/hpmf.py`, lines 121-155).  File
output is modelled as the list of lines written to `alpha.txt` / `beta.txt`
(`none` when the file is skipped), together with the logger warnings.  An
unset factor matrix produces a warning and no file; the other file is still
handled independently. -/
def write_model_state {U I K : ℕ} (m : HPMF U I K)
    (user_maps : Option (Fin U → String)) (item_maps : Option (Fin I → String)) :
    Option (List String) × Option (List String) × List WriteMsg :=
  let alphaPart : Option (List String) × List WriteMsg :=
    match m.alpha with
    | none => (none, [WriteMsg.alphaUnset])
    | some A =>
      (some (List.ofFn (fun u : Fin U =>
        formatRow (match user_maps with
                   | some f => f u
                   | none => toString (u : ℕ)) (A u))), [])
  let betaPart : Option (List String) × List WriteMsg :=
    match m.beta with
    | none => (none, [WriteMsg.betaUnset])
    | some B =>
      (some (List.ofFn (fun i : Fin I =>
        formatRow (match item_maps with
                   | some f => f i
                   | none => toString (i : ℕ)) (B i))), [])
  (alphaPart.1, betaPart.1, alphaPart.2 ++ betaPart.2)

/-- Model of `HPMF._simulate_alpha` (`src/pmf/model/hpmf.py`, lines 82-90).
`zeta_draw` stands for the `nusers` draws
`np.random.gamma(zeta_alpha_shape_prior, 1/zeta_alpha_rate_prior, nusers)` and
`rowDraw i` for the row `np.random.gamma(alpha_shape_prior, 1/zeta_alpha[i],
latent_dimensions)`.  `alpha` starts as `np.full((nusers, K), 0.0)` and the
loop `for i in range(self.nusers)` overwrites each row. -/
def simulate_alpha {U I K : ℕ} (m : HPMF U I K) (zeta_draw : Fin U → ℚ)
    (rowDraw : Fin U → Fin K → ℚ) : HPMF U I K :=
  let alpha0 : Fin U → Fin K → ℚ := fun _ _ => 0
  let finalAlpha := (List.range U).foldl
    (fun A i =>
      if h : i < U then Function.update A ⟨i, h⟩ (rowDraw ⟨i, h⟩) else A)
    alpha0
  { m with zeta_alpha := some zeta_draw, alpha := some finalAlpha }

/-- Model of `HPMF._simulate_beta` (`src/pmf/model/hpmf.py`, lines 92-100).
`beta` starts as `np.full((nitems, K), 0.0)` but the loop in the source runs
`for i in range(self.nusers)` — over `nusers`, not `nitems` — so exactly the
rows with index `< nusers` are overwritten with draws; when `nusers > nitems`
the row access `self.zeta_beta[i]` / `self.beta[i, :]` raises `IndexError`. -/
def simulate_beta {U I K : ℕ} (m : HPMF U I K) (zeta_draw : Fin I → ℚ)
    (rowDraw : Fin I → Fin K → ℚ) : Except PyErr (HPMF U I K) :=
  let beta0 : Fin I → Fin K → ℚ := fun _ _ => 0
  let finalBeta : Except PyErr (Fin I → Fin K → ℚ) := (List.range U).foldlM
    (fun B i =>
      if h : i < I then Except.ok (Function.update B ⟨i, h⟩ (rowDraw ⟨i, h⟩))
      else Except.error PyErr.indexError)
    beta0
  finalBeta.map (fun B => { m with zeta_beta := some zeta_draw, beta := some B })

/-- Model of `HPMF.simulate_model_parameters` (`src/pmf/model/hpmf.py`, lines 102-105):
`_simulate_alpha` then `_simulate_beta`. -/
def simulate_model_parameters {U I K : ℕ} (m : HPMF U I K)
    (zeta_alpha_draw : Fin U → ℚ) (alphaDraw : Fin U → Fin K → ℚ)
    (zeta_beta_draw : Fin I → ℚ) (betaDraw : Fin I → Fin K → ℚ) :
    Except PyErr (HPMF U I K) :=
  simulate_beta (simulate_alpha m zeta_alpha_draw alphaDraw) zeta_beta_draw betaDraw

/-- The variational state owned by the `VI` object (`src/pmf/vi/vi.py`,
`VI.__init__`).  The `digamma_lambda_*` / `log_mu_*` fields are the cached
digammas/logs the code stores alongside `lambda_*` / `mu_*`; `nu_user` /
`nu_item` are the constant second-level shapes; `poisson_rate` is the cached
list of `(count, normalizer)` pairs rebuilt each iteration for the ELBO. -/
structure VIState (U I K : ℕ) where
  lambda_user : Fin U → Fin K → ℚ
  digamma_lambda_user : Fin U → Fin K → ℚ
  lambda_item : Fin I → Fin K → ℚ
  digamma_lambda_item : Fin I → Fin K → ℚ
  mu_user : Fin U → Fin K → ℚ
  log_mu_user : Fin U → Fin K → ℚ
  mu_item : Fin I → Fin K → ℚ
  log_mu_item : Fin I → Fin K → ℚ
  xi_user : Fin U → ℚ
  xi_item : Fin I → ℚ
  nu_user : ℚ
  nu_item : ℚ
  sum_over_items : Fin U → Fin K → ℚ
  sum_over_users : Fin I → Fin K → ℚ
  poisson_rate : List (ℕ × ℚ)

/-- An edge of the sparse edge set: `(user, item) ↦ count`, as produced by the
`Data` collaborator (`get_edge_list`). -/
abbrev Edge (U I : ℕ) := Fin U × Fin I × ℕ

/-- Model of `VI.__init__` (`src/pmf/vi/vi.py`, lines 28-71).  `mu_user0` / `mu_item0`
stand for the `np.random.gamma(zeta_*_shape_prior, 1/zeta_*_rate_prior, (n,K))`
initial draws (the only randomness in the engine; a seed fixes them). -/
def VIinit (P : NumLib) {U I K : ℕ} (m : HPMF U I K)
    (mu_user0 : Fin U → Fin K → ℚ) (mu_item0 : Fin I → Fin K → ℚ) :
    VIState U I K where
  lambda_user := fun _ _ => m.alpha_shape_prior
  digamma_lambda_user := fun _ _ => P.digamma m.alpha_shape_prior
  lambda_item := fun _ _ => m.beta_shape_prior
  digamma_lambda_item := fun _ _ => P.digamma m.beta_shape_prior
  mu_user := mu_user0
  log_mu_user := fun u k => P.log (mu_user0 u k)
  mu_item := mu_item0
  log_mu_item := fun i k => P.log (mu_item0 i k)
  xi_user := fun _ => m.zeta_alpha_rate_prior
  xi_item := fun _ => m.zeta_beta_rate_prior
  nu_user := m.zeta_alpha_shape_prior + (K : ℚ) * m.alpha_shape_prior
  nu_item := m.zeta_beta_shape_prior + (K : ℚ) * m.beta_shape_prior
  sum_over_items := fun _ _ => 0
  sum_over_users := fun _ _ => 0
  poisson_rate := []

/-- The loop-local `chi` of `VI._update_multinomial_parameters` after the
`np.exp` (`src/pmf/vi/vi.py`, lines 83-89), read from the cached
digamma/log fields exactly as the source does. -/
def cachedChi (P : NumLib) {U I K : ℕ} (s : VIState U I K) (u : Fin U)
    (i : Fin I) : Fin K → ℚ := fun k =>
  P.exp (s.digamma_lambda_user u k - s.log_mu_user u k
    + s.digamma_lambda_item i k - s.log_mu_item i k)

/-- The loop-local `chi_normalising = sum(chi)` (`src/pmf/vi/vi.py`, line 90). -/
def cachedZ (P : NumLib) {U I K : ℕ} (s : VIState U I K) (u : Fin U)
    (i : Fin I) : ℚ :=
  ∑ k, cachedChi P s u i k

/-- The value of `chi` after the in-place normalization
(`src/pmf/vi/vi.py`, lines 92-96): divided by `-expm1(-chi_normalising)` in
Bernoulli-Poisson mode, otherwise divided by `chi_normalising` and scaled by
`float(count)`. -/
def cachedChiNorm (P : NumLib) {U I K : ℕ} (berpo : Bool) (s : VIState U I K)
    (e : Edge U I) : Fin K → ℚ :=
  if berpo then
    fun k => cachedChi P s e.1 e.2.1 k / (-P.expm1 (-cachedZ P s e.1 e.2.1))
  else
    fun k => cachedChi P s e.1 e.2.1 k / cachedZ P s e.1 e.2.1 * (e.2.2 : ℚ)

/-- The body of the per-edge loop of `VI._update_multinomial_parameters`
(`src/pmf/vi/vi.py`, lines 82-98): compute `chi`, exponentiate, record
`(count, Z)` with `Z = sum(chi)` before normalization, normalize, and
accumulate into both `sum_over_users[item]` and `sum_over_items[user]`. -/
def stepEdge (P : NumLib) {U I K : ℕ} (berpo : Bool) (s : VIState U I K)
    (e : Edge U I) : VIState U I K :=
  { s with
    poisson_rate := s.poisson_rate ++ [(e.2.2, cachedZ P s e.1 e.2.1)]
    sum_over_users := fun i' k =>
      if i' = e.2.1 then s.sum_over_users i' k + cachedChiNorm P berpo s e k
      else s.sum_over_users i' k
    sum_over_items := fun u' k =>
      if u' = e.1 then s.sum_over_items u' k + cachedChiNorm P berpo s e k
      else s.sum_over_items u' k }

/-- Model of `VI._update_multinomial_parameters` (`src/pmf/vi/vi.py`, lines 73-98):
reset both accumulators to zero and `poisson_rate` to empty, then run the
per-edge loop over the edge list. -/
def update_multinomial_parameters (P : NumLib) {U I K : ℕ} (berpo : Bool)
    (edges : List (Edge U I)) (s : VIState U I K) : VIState U I K :=
  edges.foldl (stepEdge P berpo)
    { s with
      sum_over_items := fun _ _ => 0
      sum_over_users := fun _ _ => 0
      poisson_rate := [] }

/-- Model of `VI._update_user_parameters` (`src/pmf/vi/vi.py`, lines 100-111).
`np.add.outer(nu_user / xi_user, (lambda_item / mu_item).sum(axis=0))` has
entries `nu_user / xi_user[u] + Σ_i lambda_item[i,k] / mu_item[i,k]`; the
`xi_user` update divides the freshly assigned `lambda_user` by the freshly
assigned `mu_user` and sums over `axis=1` (the latent dimension). -/
def update_user_parameters (P : NumLib) {U I K : ℕ} (m : HPMF U I K)
    (s : VIState U I K) : VIState U I K :=
  let lambda_user : Fin U → Fin K → ℚ := fun u k =>
    m.alpha_shape_prior + s.sum_over_items u k
  let digamma_lambda_user : Fin U → Fin K → ℚ := fun u k =>
    P.digamma (lambda_user u k)
  let mu_user : Fin U → Fin K → ℚ := fun u k =>
    s.nu_user / s.xi_user u + ∑ i, s.lambda_item i k / s.mu_item i k
  let log_mu_user : Fin U → Fin K → ℚ := fun u k => P.log (mu_user u k)
  let xi_user : Fin U → ℚ := fun u =>
    m.zeta_alpha_rate_prior + ∑ k, lambda_user u k / mu_user u k
  { s with
    lambda_user := lambda_user
    digamma_lambda_user := digamma_lambda_user
    mu_user := mu_user
    log_mu_user := log_mu_user
    xi_user := xi_user }

/-- Model of `VI._update_item_parameters` (`src/pmf/vi/vi.py`, lines 113-124):
the mirror image of the user update. -/
def update_item_parameters (P : NumLib) {U I K : ℕ} (m : HPMF U I K)
    (s : VIState U I K) : VIState U I K :=
  let lambda_item : Fin I → Fin K → ℚ := fun i k =>
    m.beta_shape_prior + s.sum_over_users i k
  let digamma_lambda_item : Fin I → Fin K → ℚ := fun i k =>
    P.digamma (lambda_item i k)
  let mu_item : Fin I → Fin K → ℚ := fun i k =>
    s.nu_item / s.xi_item i + ∑ u, s.lambda_user u k / s.mu_user u k
  let log_mu_item : Fin I → Fin K → ℚ := fun i k => P.log (mu_item i k)
  let xi_item : Fin I → ℚ := fun i =>
    m.zeta_beta_rate_prior + ∑ k, lambda_item i k / mu_item i k
  { s with
    lambda_item := lambda_item
    digamma_lambda_item := digamma_lambda_item
    mu_item := mu_item
    log_mu_item := log_mu_item
    xi_item := xi_item }

/-- Model of `VI._elbo_theta_terms` (`src/pmf/vi/vi.py`, lines 126-142).  The Python
overflow guard around `np.log(np.expm1(theta))` exists only because of float
overflow; exact rational arithmetic never overflows, so the non-overflow
branch is the model. -/
def elbo_theta_terms (P : NumLib) {U I K : ℕ} (berpo : Bool)
    (s : VIState U I K) : ℚ :=
  let term1 : Fin K → ℚ := fun k => ∑ u, s.lambda_user u k / s.mu_user u k
  let term2 : Fin K → ℚ := fun k => ∑ i, s.lambda_item i k / s.mu_item i k
  s.poisson_rate.foldl
    (fun acc ct =>
      if berpo then acc + P.log (P.expm1 ct.2)
      else acc + (ct.1 : ℚ) * P.log ct.2)
    (-∑ k, term1 k * term2 k)

/-- Model of `VI._elbo_hp_item_terms` (`src/pmf/vi/vi.py`, lines 144-148). -/
def elbo_hp_item_terms {U I K : ℕ} (m : HPMF U I K) (log_xi : Fin I → ℚ)
    (nu_d_xi : Fin I → ℚ) : ℚ :=
  -(∑ i, m.zeta_beta_shape_prior * log_xi i)
    - ∑ i, m.zeta_beta_rate_prior * nu_d_xi i

/-- Model of `VI._elbo_item_terms` (`src/pmf/vi/vi.py`, lines 150-172).  The matrix
`np.transpose(nu_d_xi * np.transpose(1.0 / mu_item))` has entries
`nu_d_xi[i] / mu_item[i,k]`. -/
def elbo_item_terms (P : NumLib) {U I K : ℕ} (m : HPMF U I K)
    (s : VIState U I K) : ℚ :=
  let log_mu := s.log_mu_item
  let log_xi : Fin I → ℚ := fun i => P.log (s.xi_item i)
  let nu_d_xi : Fin I → ℚ := fun i => s.nu_item / s.xi_item i
  (∑ i, ∑ k, P.gammaln (s.lambda_item i k))
    - (∑ i, ∑ k, s.lambda_item i k * log_mu i k)
    + (∑ i, ∑ k, (m.beta_shape_prior - s.lambda_item i k)
        * (s.digamma_lambda_item i k - log_mu i k))
    + (∑ i, ∑ k, s.lambda_item i k * (1 - nu_d_xi i * (1 / s.mu_item i k)))
    - (K : ℚ) * m.beta_shape_prior * (∑ i, log_xi i)
    + elbo_hp_item_terms m log_xi nu_d_xi

/-- Model of `VI._elbo_hp_user_terms` (`src/pmf/vi/vi.py`, lines 174-178). -/
def elbo_hp_user_terms {U I K : ℕ} (m : HPMF U I K) (log_xi : Fin U → ℚ)
    (nu_d_xi : Fin U → ℚ) : ℚ :=
  -(∑ u, m.zeta_alpha_shape_prior * log_xi u)
    - ∑ u, m.zeta_alpha_rate_prior * nu_d_xi u

/-- Model of `VI._elbo_user_terms` (`src/pmf/vi/vi.py`, lines 180-202). -/
def elbo_user_terms (P : NumLib) {U I K : ℕ} (m : HPMF U I K)
    (s : VIState U I K) : ℚ :=
  let log_mu := s.log_mu_user
  let log_xi : Fin U → ℚ := fun u => P.log (s.xi_user u)
  let nu_d_xi : Fin U → ℚ := fun u => s.nu_user / s.xi_user u
  (∑ u, ∑ k, P.gammaln (s.lambda_user u k))
    - (∑ u, ∑ k, s.lambda_user u k * log_mu u k)
    + (∑ u, ∑ k, (m.alpha_shape_prior - s.lambda_user u k)
        * (s.digamma_lambda_user u k - log_mu u k))
    + (∑ u, ∑ k, s.lambda_user u k * (1 - nu_d_xi u * (1 / s.mu_user u k)))
    - (K : ℚ) * m.alpha_shape_prior * (∑ u, log_xi u)
    + elbo_hp_user_terms m log_xi nu_d_xi

/-- Model of `VI._elbo` (`src/pmf/vi/vi.py`, lines 204-209). -/
def elbo (P : NumLib) {U I K : ℕ} (m : HPMF U I K) (s : VIState U I K) : ℚ :=
  elbo_theta_terms P m.berpo s + elbo_user_terms P m s + elbo_item_terms P m s

/-- Model of `VI._change_in_elbo` (`src/pmf/vi/vi.py`, lines 211-215), the returned
value; the side effect (the "ELBO is decreasing" diagnostic when negative) is
recorded in the run log. -/
def change_in_elbo (old_elbo new_elbo : ℚ) : ℚ :=
  (new_elbo - old_elbo) / |old_elbo|

/-- The stderr messages printed by `VI.run_algorithm` and
`VI._change_in_elbo`. -/
inductive LogMsg where
  | iterationNumber (n : ℕ)
  | elboDecreasing
  | didNotConverge (maxIts : ℕ)
  | converged (n : ℕ) (elboVal : ℚ)
deriving DecidableEq

/-- Result of the `while` loop of `VI.run_algorithm`: the final variational
state, the value of `niterations` on loop exit, the value of the local `elbo`
variable (`none` when no iteration ran), the relative ELBO change that
triggered the `break` (instrumentation: `none` when the loop exited by the
`while` guard), and the stderr log. -/
structure LoopResult (U I K : ℕ) where
  state : VIState U I K
  niterations : ℕ
  lastElbo : Option ℚ
  breakEps : Option ℚ
  log : List LogMsg

/-- The `while niterations < self._max_its` loop of `VI.run_algorithm`
(`src/pmf/vi/vi.py`, lines 219-233).  `fuel` is an upper bound on remaining
passes kept for structural recursion; it is always called with
`fuel = maxIts - niter`, so the `niter < maxIts` guard, not the fuel, decides
the exit exactly as in the source. -/
def runLoopAux (P : NumLib) {U I K : ℕ} (m : HPMF U I K)
    (edges : List (Edge U I)) (threshold : ℚ) (maxIts : ℕ) :
    ℕ → ℕ → VIState U I K → Option ℚ → List LogMsg → LoopResult U I K
  | 0, niter, s, oldElbo, log => ⟨s, niter, oldElbo, none, log⟩
  | fuel + 1, niter, s, oldElbo, log =>
    if niter < maxIts then
      let log1 := log ++ [LogMsg.iterationNumber niter]
      let s1 := update_multinomial_parameters P m.berpo edges s
      let e := elbo P m s1
      if 0 < niter then
        let eps := change_in_elbo (oldElbo.getD 0) e
        let log2 := log1 ++ (if eps < 0 then [LogMsg.elboDecreasing] else [])
        if eps ≤ threshold then
          ⟨s1, niter, some e, some eps, log2⟩
        else
          runLoopAux P m edges threshold maxIts fuel (niter + 1)
            (update_item_parameters P m (update_user_parameters P m s1))
            (some e) log2
      else
        runLoopAux P m edges threshold maxIts fuel (niter + 1)
          (update_item_parameters P m (update_user_parameters P m s1))
          (some e) log1
    else ⟨s, niter, oldElbo, none, log⟩

/-- Model of `VI.run_algorithm` (`src/pmf/vi/vi.py`, lines 217-246): build the initial
state (`VI.__init__`), run the loop, report the terminal condition, and write
the posterior means `lambda/mu` into the model's `alpha` and `beta`. -/
def run_algorithm (P : NumLib) {U I K : ℕ} (m : HPMF U I K)
    (edges : List (Edge U I)) (mu_user0 : Fin U → Fin K → ℚ)
    (mu_item0 : Fin I → Fin K → ℚ) (threshold : ℚ) (maxIts : ℕ) :
    HPMF U I K × LoopResult U I K :=
  let s0 := VIinit P m mu_user0 mu_item0
  let r := runLoopAux P m edges threshold maxIts maxIts 0 s0 none []
  let finalLog := r.log ++
    (if r.niterations = maxIts then [LogMsg.didNotConverge maxIts]
     else [LogMsg.converged r.niterations (r.lastElbo.getD 0)])
  let m' := { m with
    alpha := some (fun u k => r.state.lambda_user u k / r.state.mu_user u k)
    beta := some (fun i k => r.state.lambda_item i k / r.state.mu_item i k) }
  (m', { r with log := finalLog })

/-- The caches the engine stores next to `lambda_*` / `mu_*` are in sync with
their source parameters (the code refreshes them at construction and
immediately after every parameter assignment). -/
def CacheSync (P : NumLib) {U I K : ℕ} (s : VIState U I K) : Prop :=
  s.digamma_lambda_user = (fun u k => P.digamma (s.lambda_user u k)) ∧
  s.log_mu_user = (fun u k => P.log (s.mu_user u k)) ∧
  s.digamma_lambda_item = (fun i k => P.digamma (s.lambda_item i k)) ∧
  s.log_mu_item = (fun i k => P.log (s.mu_item i k))

/-- Stated from the spec's wording of the allocation step (for comparison with
the code): `chi_k = exp(digamma(lambda_user[u,k]) - log(mu_user[u,k]) +
digamma(lambda_item[i,k]) - log(mu_item[i,k]))`. -/
def edgeChi (P : NumLib) {U I K : ℕ} (s : VIState U I K) (u : Fin U)
    (i : Fin I) : Fin K → ℚ := fun k =>
  P.exp (P.digamma (s.lambda_user u k) - P.log (s.mu_user u k)
    + P.digamma (s.lambda_item i k) - P.log (s.mu_item i k))

/-- Stated from the spec's wording: `Z = sum_k chi_k`. -/
def edgeZ (P : NumLib) {U I K : ℕ} (s : VIState U I K) (u : Fin U)
    (i : Fin I) : ℚ :=
  ∑ k, edgeChi P s u i k

/-- Stated from the spec's wording: the per-edge allocation vector after
normalization — `chi / -(expm1(-Z))` in Bernoulli-Poisson mode, `chi / Z * c`
otherwise. -/
def edgeChiNorm (P : NumLib) {U I K : ℕ} (berpo : Bool) (s : VIState U I K)
    (e : Edge U I) : Fin K → ℚ :=
  if berpo then
    fun k => edgeChi P s e.1 e.2.1 k / (-P.expm1 (-edgeZ P s e.1 e.2.1))
  else
    fun k => edgeChi P s e.1 e.2.1 k / edgeZ P s e.1 e.2.1 * (e.2.2 : ℚ)

/-- The positivity invariant of the variational state: all shape and rate
parameters strictly positive, the allocation accumulators non-negative. -/
def PosState {U I K : ℕ} (s : VIState U I K) : Prop :=
  (∀ u k, 0 < s.mu_user u k) ∧ (∀ i k, 0 < s.mu_item i k) ∧
  (∀ u, 0 < s.xi_user u) ∧ (∀ i, 0 < s.xi_item i) ∧
  (∀ u k, 0 < s.lambda_user u k) ∧ (∀ i k, 0 < s.lambda_item i k) ∧
  (∀ u k, 0 ≤ s.sum_over_items u k) ∧ (∀ i k, 0 ≤ s.sum_over_users i k) ∧
  0 < s.nu_user ∧ 0 < s.nu_item

/-- Strictly positive hyper-parameters. -/
def PosPriors {U I K : ℕ} (m : HPMF U I K) : Prop :=
  0 < m.alpha_shape_prior ∧ 0 < m.beta_shape_prior ∧
  0 < m.zeta_alpha_shape_prior ∧ 0 < m.zeta_beta_shape_prior ∧
  0 < m.zeta_alpha_rate_prior ∧ 0 < m.zeta_beta_rate_prior

/-- Analytic fact of the real exponential carried as a hypothesis on the
abstract library: `exp` is strictly positive. -/
def ExpPos (P : NumLib) : Prop := ∀ x, 0 < P.exp x

/-- Analytic fact of the real `expm1` carried as a hypothesis on the abstract
library: `expm1 x < 0` for `x < 0`. -/
def Expm1NegOnNeg (P : NumLib) : Prop := ∀ x, x < 0 → P.expm1 x < 0

/-- A simple concrete library instantiation used for witnesses: a strictly
positive constant for `exp`, the identity for `expm1` (negative on negatives,
like the real `expm1`), zero for the rest. -/
def ratLib : NumLib :=
  { exp := fun _ => 1/2
    log := fun _ => 0
    digamma := fun _ => 0
    expm1 := fun x => x
    gammaln := fun _ => 0 }

/-- A concrete library instantiation under which the engine's ELBO strictly
decreases between iterations 0 and 1 on `edges1` below, exhibiting the
`NumericAnomaly` path of the loop. -/
def decLib : NumLib :=
  { exp := fun _ => 1
    log := fun x => x
    digamma := fun x => x
    expm1 := fun x => x
    gammaln := fun _ => 0 }

/-- A concrete 1-user, 1-item, 1-dimension Poisson-mode model. -/
def m1 : HPMF 1 1 1 :=
  { alpha_shape_prior := 1, beta_shape_prior := 2, berpo := false
    zeta_alpha_shape_prior := 1, zeta_beta_shape_prior := 1
    zeta_alpha_rate_prior := 1, zeta_beta_rate_prior := 1
    alpha := none, beta := none, zeta_alpha := none, zeta_beta := none }

/-- A single observed edge `(user 0, item 0, count 1)`. -/
def edges1 : List (Edge 1 1) := [(0, 0, 1)]

/-- The variational state of the `decLib` run on `m1`/`edges1` at the top of
iteration 1 (after iteration 0's multinomial, user and item updates). -/
def stateW : VIState 1 1 1 :=
  update_item_parameters decLib m1
    (update_user_parameters decLib m1
      (update_multinomial_parameters decLib false edges1
        (VIinit decLib m1 (fun _ _ => 1) (fun _ _ => 1))))

/-- A 1×1×1 Bernoulli-Poisson model with both factor matrices computed and
identically 1, so that the rate matrix `alpha @ beta.T` is identically 1. -/
def m7 : HPMF 1 1 1 :=
  { alpha_shape_prior := 1, beta_shape_prior := 1, berpo := true
    zeta_alpha_shape_prior := 1, zeta_beta_shape_prior := 1
    zeta_alpha_rate_prior := 1, zeta_beta_rate_prior := 1
    alpha := some (fun _ _ => 1), beta := some (fun _ _ => 1)
    zeta_alpha := none, zeta_beta := none }

/-- A fresh model (no inference ran yet): both factor matrices unset. -/
def munset : HPMF 1 1 1 :=
  { alpha_shape_prior := 1, beta_shape_prior := 1, berpo := true
    zeta_alpha_shape_prior := 1, zeta_beta_shape_prior := 1
    zeta_alpha_rate_prior := 1, zeta_beta_rate_prior := 1
    alpha := none, beta := none, zeta_alpha := none, zeta_beta := none }

/-- A fresh model with `nusers = 1 < nitems = 2` (the shape on which
`_simulate_beta`'s loop bound shows). -/
def m9 : HPMF 1 2 1 :=
  { alpha_shape_prior := 1, beta_shape_prior := 1, berpo := true
    zeta_alpha_shape_prior := 1, zeta_beta_shape_prior := 1
    zeta_alpha_rate_prior := 1, zeta_beta_rate_prior := 1
    alpha := none, beta := none, zeta_alpha := none, zeta_beta := none }

/-- A fresh model with `nusers = 3 > nitems = 2`. -/
def m9big : HPMF 3 2 1 :=
  { alpha_shape_prior := 1, beta_shape_prior := 1, berpo := true
    zeta_alpha_shape_prior := 1, zeta_beta_shape_prior := 1
    zeta_alpha_rate_prior := 1, zeta_beta_rate_prior := 1
    alpha := none, beta := none, zeta_alpha := none, zeta_beta := none }

/-- A 2-user, 2-item model with computed factor matrices whose rows differ,
for exercising numpy negative indexing. -/
def m10 : HPMF 2 2 1 :=
  { alpha_shape_prior := 1, beta_shape_prior := 1, berpo := false
    zeta_alpha_shape_prior := 1, zeta_beta_shape_prior := 1
    zeta_alpha_rate_prior := 1, zeta_beta_rate_prior := 1
    alpha := some (fun u _ => (u : ℚ) + 1), beta := some (fun i _ => (i : ℚ) + 3)
    zeta_alpha := none, zeta_beta := none }

/-! ### Helper lemmas -/

theorem stepEdge_preserves_params (P : NumLib) {U I K : ℕ} (b : Bool)
    (s : VIState U I K) (e : Edge U I) :
    (stepEdge P b s e).lambda_user = s.lambda_user ∧
    (stepEdge P b s e).lambda_item = s.lambda_item ∧
    (stepEdge P b s e).mu_user = s.mu_user ∧
    (stepEdge P b s e).mu_item = s.mu_item ∧
    (stepEdge P b s e).xi_user = s.xi_user ∧
    (stepEdge P b s e).xi_item = s.xi_item ∧
    (stepEdge P b s e).nu_user = s.nu_user ∧
    (stepEdge P b s e).nu_item = s.nu_item :=
  ⟨rfl, rfl, rfl, rfl, rfl, rfl, rfl, rfl⟩

theorem foldl_stepEdge_lambda_user (P : NumLib) {U I K : ℕ} (b : Bool)
    (edges : List (Edge U I)) : ∀ s : VIState U I K,
    (edges.foldl (stepEdge P b) s).lambda_user = s.lambda_user := by
  induction edges with
  | nil => intro s; rfl
  | cons e es ih => intro s; exact ih (stepEdge P b s e)

theorem foldl_stepEdge_lambda_item (P : NumLib) {U I K : ℕ} (b : Bool)
    (edges : List (Edge U I)) : ∀ s : VIState U I K,
    (edges.foldl (stepEdge P b) s).lambda_item = s.lambda_item := by
  induction edges with
  | nil => intro s; rfl
  | cons e es ih => intro s; exact ih (stepEdge P b s e)

theorem foldl_stepEdge_mu_user (P : NumLib) {U I K : ℕ} (b : Bool)
    (edges : List (Edge U I)) : ∀ s : VIState U I K,
    (edges.foldl (stepEdge P b) s).mu_user = s.mu_user := by
  induction edges with
  | nil => intro s; rfl
  | cons e es ih => intro s; exact ih (stepEdge P b s e)

theorem foldl_stepEdge_mu_item (P : NumLib) {U I K : ℕ} (b : Bool)
    (edges : List (Edge U I)) : ∀ s : VIState U I K,
    (edges.foldl (stepEdge P b) s).mu_item = s.mu_item := by
  induction edges with
  | nil => intro s; rfl
  | cons e es ih => intro s; exact ih (stepEdge P b s e)

theorem foldl_stepEdge_xi_user (P : NumLib) {U I K : ℕ} (b : Bool)
    (edges : List (Edge U I)) : ∀ s : VIState U I K,
    (edges.foldl (stepEdge P b) s).xi_user = s.xi_user := by
  induction edges with
  | nil => intro s; rfl
  | cons e es ih => intro s; exact ih (stepEdge P b s e)

theorem foldl_stepEdge_xi_item (P : NumLib) {U I K : ℕ} (b : Bool)
    (edges : List (Edge U I)) : ∀ s : VIState U I K,
    (edges.foldl (stepEdge P b) s).xi_item = s.xi_item := by
  induction edges with
  | nil => intro s; rfl
  | cons e es ih => intro s; exact ih (stepEdge P b s e)

theorem foldl_stepEdge_nu_user (P : NumLib) {U I K : ℕ} (b : Bool)
    (edges : List (Edge U I)) : ∀ s : VIState U I K,
    (edges.foldl (stepEdge P b) s).nu_user = s.nu_user := by
  induction edges with
  | nil => intro s; rfl
  | cons e es ih => intro s; exact ih (stepEdge P b s e)

theorem foldl_stepEdge_nu_item (P : NumLib) {U I K : ℕ} (b : Bool)
    (edges : List (Edge U I)) : ∀ s : VIState U I K,
    (edges.foldl (stepEdge P b) s).nu_item = s.nu_item := by
  induction edges with
  | nil => intro s; rfl
  | cons e es ih => intro s; exact ih (stepEdge P b s e)

theorem foldl_stepEdge_soi (P : NumLib) {U I K : ℕ} (b : Bool)
    (edges : List (Edge U I)) : ∀ (s : VIState U I K) (u : Fin U) (k : Fin K),
    (edges.foldl (stepEdge P b) s).sum_over_items u k
      = s.sum_over_items u k
        + ((edges.filter (fun e => e.1 = u)).map
            (fun e => cachedChiNorm P b s e k)).sum := by
  induction edges with
  | nil => intro s u k; simp
  | cons e es ih =>
    intro s u k
    rw [List.foldl_cons, ih (stepEdge P b s e) u k]
    have hchi : (fun e' => cachedChiNorm P b (stepEdge P b s e) e' k)
        = fun e' => cachedChiNorm P b s e' k := rfl
    rw [hchi]
    by_cases h : e.1 = u
    · subst h
      have hstep : (stepEdge P b s e).sum_over_items e.1 k
          = s.sum_over_items e.1 k + cachedChiNorm P b s e k := by
        simp [stepEdge]
      rw [hstep]
      simp [List.filter_cons, add_assoc]
    · have hstep : (stepEdge P b s e).sum_over_items u k
          = s.sum_over_items u k := if_neg (Ne.symm h)
      rw [hstep]
      simp [List.filter_cons, h]

theorem foldl_stepEdge_sou (P : NumLib) {U I K : ℕ} (b : Bool)
    (edges : List (Edge U I)) : ∀ (s : VIState U I K) (i : Fin I) (k : Fin K),
    (edges.foldl (stepEdge P b) s).sum_over_users i k
      = s.sum_over_users i k
        + ((edges.filter (fun e => e.2.1 = i)).map
            (fun e => cachedChiNorm P b s e k)).sum := by
  induction edges with
  | nil => intro s i k; simp
  | cons e es ih =>
    intro s i k
    rw [List.foldl_cons, ih (stepEdge P b s e) i k]
    have hchi : (fun e' => cachedChiNorm P b (stepEdge P b s e) e' k)
        = fun e' => cachedChiNorm P b s e' k := rfl
    rw [hchi]
    by_cases h : e.2.1 = i
    · subst h
      have hstep : (stepEdge P b s e).sum_over_users e.2.1 k
          = s.sum_over_users e.2.1 k + cachedChiNorm P b s e k := by
        simp [stepEdge]
      rw [hstep]
      simp [List.filter_cons, add_assoc]
    · have hstep : (stepEdge P b s e).sum_over_users i k
          = s.sum_over_users i k := if_neg (Ne.symm h)
      rw [hstep]
      simp [List.filter_cons, h]

theorem foldl_stepEdge_poisson (P : NumLib) {U I K : ℕ} (b : Bool)
    (edges : List (Edge U I)) : ∀ s : VIState U I K,
    (edges.foldl (stepEdge P b) s).poisson_rate
      = s.poisson_rate ++ edges.map (fun e => (e.2.2, cachedZ P s e.1 e.2.1)) := by
  induction edges with
  | nil => intro s; simp
  | cons e es ih =>
    intro s
    rw [List.foldl_cons, ih (stepEdge P b s e)]
    have hz : (fun e' : Edge U I => (e'.2.2, cachedZ P (stepEdge P b s e) e'.1 e'.2.1))
        = fun e' => (e'.2.2, cachedZ P s e'.1 e'.2.1) := rfl
    rw [hz]
    have hstep : (stepEdge P b s e).poisson_rate
        = s.poisson_rate ++ [(e.2.2, cachedZ P s e.1 e.2.1)] := rfl
    rw [hstep]
    simp

/-! ### Claim C3 -/

/-- C3. The user parameter update sets `lambda_user = alpha_shape_prior +
sum_over_items`, then `mu_user[u,k] = nu_user/xi_user[u] + Σ_i
lambda_item[i,k]/mu_item[i,k]` with `xi_user` from before this update, then
`xi_user[u] = zeta_alpha_rate_prior + Σ_k lambda_user[u,k]/mu_user[u,k]` using
the just-updated `lambda_user` and `mu_user`; the item update, executed after
the user update, performs the same equations with roles swapped. -/
theorem C3_update_equations (P : NumLib) {U I K : ℕ} (m : HPMF U I K)
    (s : VIState U I K) :
    (∀ u k, (update_user_parameters P m s).lambda_user u k
      = m.alpha_shape_prior + s.sum_over_items u k) ∧
    (∀ u k, (update_user_parameters P m s).mu_user u k
      = s.nu_user / s.xi_user u + ∑ i, s.lambda_item i k / s.mu_item i k) ∧
    (∀ u, (update_user_parameters P m s).xi_user u
      = m.zeta_alpha_rate_prior
        + ∑ k, (update_user_parameters P m s).lambda_user u k
            / (update_user_parameters P m s).mu_user u k) ∧
    (∀ i k, (update_item_parameters P m (update_user_parameters P m s)).lambda_item i k
      = m.beta_shape_prior + (update_user_parameters P m s).sum_over_users i k) ∧
    (∀ i k, (update_item_parameters P m (update_user_parameters P m s)).mu_item i k
      = (update_user_parameters P m s).nu_item
          / (update_user_parameters P m s).xi_item i
        + ∑ u, (update_user_parameters P m s).lambda_user u k
            / (update_user_parameters P m s).mu_user u k) ∧
    (∀ i, (update_item_parameters P m (update_user_parameters P m s)).xi_item i
      = m.zeta_beta_rate_prior
        + ∑ k, (update_item_parameters P m (update_user_parameters P m s)).lambda_item i k
            / (update_item_parameters P m (update_user_parameters P m s)).mu_item i k) :=
  ⟨fun _ _ => rfl, fun _ _ => rfl, fun _ => rfl,
   fun _ _ => rfl, fun _ _ => rfl, fun _ => rfl⟩

/-- C3 witness: the update equations instantiated on a concrete model and
state. -/
theorem C3_update_equations_witness :
    (∀ u k, (update_user_parameters ratLib m1 stateW).lambda_user u k
      = m1.alpha_shape_prior + stateW.sum_over_items u k) ∧
    (∀ u k, (update_user_parameters ratLib m1 stateW).mu_user u k
      = stateW.nu_user / stateW.xi_user u
        + ∑ i, stateW.lambda_item i k / stateW.mu_item i k) ∧
    (∀ u, (update_user_parameters ratLib m1 stateW).xi_user u
      = m1.zeta_alpha_rate_prior
        + ∑ k, (update_user_parameters ratLib m1 stateW).lambda_user u k
            / (update_user_parameters ratLib m1 stateW).mu_user u k) ∧
    (∀ i k, (update_item_parameters ratLib m1 (update_user_parameters ratLib m1 stateW)).lambda_item i k
      = m1.beta_shape_prior
        + (update_user_parameters ratLib m1 stateW).sum_over_users i k) ∧
    (∀ i k, (update_item_parameters ratLib m1 (update_user_parameters ratLib m1 stateW)).mu_item i k
      = (update_user_parameters ratLib m1 stateW).nu_item
          / (update_user_parameters ratLib m1 stateW).xi_item i
        + ∑ u, (update_user_parameters ratLib m1 stateW).lambda_user u k
            / (update_user_parameters ratLib m1 stateW).mu_user u k) ∧
    (∀ i, (update_item_parameters ratLib m1 (update_user_parameters ratLib m1 stateW)).xi_item i
      = m1.zeta_beta_rate_prior
        + ∑ k, (update_item_parameters ratLib m1 (update_user_parameters ratLib m1 stateW)).lambda_item i k
            / (update_item_parameters ratLib m1 (update_user_parameters ratLib m1 stateW)).mu_item i k) :=
  C3_update_equations ratLib m1 stateW

/-! ### Claim C5 -/

/-- C5. Whenever `run_algorithm` terminates — by convergence or by exhausting
the budget — it writes `alpha = lambda_user / mu_user` and
`beta = lambda_item / mu_item` into the model, and this assignment of `alpha`
and `beta` is the only mutation of the model: every other model field is
unchanged (the structure-update equality below fixes all remaining fields to
those of `m`). -/
theorem C5_writeback_frame (P : NumLib) {U I K : ℕ} (m : HPMF U I K)
    (edges : List (Edge U I)) (mu_user0 : Fin U → Fin K → ℚ)
    (mu_item0 : Fin I → Fin K → ℚ) (threshold : ℚ) (maxIts : ℕ) :
    (run_algorithm P m edges mu_user0 mu_item0 threshold maxIts).1
      = { m with
          alpha := some (fun u k =>
            (run_algorithm P m edges mu_user0 mu_item0 threshold maxIts).2.state.lambda_user u k
              / (run_algorithm P m edges mu_user0 mu_item0 threshold maxIts).2.state.mu_user u k)
          beta := some (fun i k =>
            (run_algorithm P m edges mu_user0 mu_item0 threshold maxIts).2.state.lambda_item i k
              / (run_algorithm P m edges mu_user0 mu_item0 threshold maxIts).2.state.mu_item i k) } :=
  rfl

/-! ### Claim C2 -/

/-- C2. In every iteration the multinomial allocation step computes, for every
observed edge `(u, i, c)`, the vector `chi` with `chi_k =
exp(digamma(lambda_user[u,k]) - log(mu_user[u,k]) + digamma(lambda_item[i,k])
- log(mu_item[i,k]))` and its sum `Z`; in Bernoulli-Poisson mode it divides
`chi` by `-expm1(-Z)`, otherwise it divides by `Z` and multiplies by `c`; it
adds the result into both `sum_over_items[u]` and `sum_over_users[i]` (both
reset to zero at the start of the step, hence each accumulator equals exactly
the sum over its incident edges) and records the pair `(c, Z)` for the ELBO.
The hypothesis is that the stored digamma/log caches are in sync with their
parameters, which the engine maintains at every call site. -/
theorem C2_multinomial_allocation (P : NumLib) {U I K : ℕ} (berpo : Bool)
    (edges : List (Edge U I)) (s : VIState U I K) (hsync : CacheSync P s)
    (u : Fin U) (i : Fin I) :
    (∀ k, (update_multinomial_parameters P berpo edges s).sum_over_items u k
      = ((edges.filter (fun e => e.1 = u)).map
          (fun e => edgeChiNorm P berpo s e k)).sum) ∧
    (∀ k, (update_multinomial_parameters P berpo edges s).sum_over_users i k
      = ((edges.filter (fun e => e.2.1 = i)).map
          (fun e => edgeChiNorm P berpo s e k)).sum) ∧
    (update_multinomial_parameters P berpo edges s).poisson_rate
      = edges.map (fun e => (e.2.2, edgeZ P s e.1 e.2.1)) := by
  obtain ⟨h1, h2, h3, h4⟩ := hsync
  have hchi : ∀ (u' : Fin U) (i' : Fin I),
      cachedChi P s u' i' = edgeChi P s u' i' := by
    intro u' i'
    funext k'
    simp only [cachedChi, edgeChi, h1, h2, h3, h4]
  have hz : ∀ (u' : Fin U) (i' : Fin I), cachedZ P s u' i' = edgeZ P s u' i' := by
    intro u' i'
    simp only [cachedZ, edgeZ, hchi]
  have hnorm : ∀ e : Edge U I,
      cachedChiNorm P berpo s e = edgeChiNorm P berpo s e := by
    intro e
    simp only [cachedChiNorm, edgeChiNorm, hchi, hz]
  refine ⟨?_, ?_, ?_⟩
  · intro k
    rw [update_multinomial_parameters,
      foldl_stepEdge_soi P berpo edges _ u k]
    have hfn : (fun e => cachedChiNorm P berpo
          { s with sum_over_items := fun _ _ => 0
                   sum_over_users := fun _ _ => 0
                   poisson_rate := ([] : List (ℕ × ℚ)) } e k)
        = fun e => edgeChiNorm P berpo s e k :=
      funext fun e => congrFun (hnorm e) k
    rw [hfn]
    exact zero_add _
  · intro k
    rw [update_multinomial_parameters,
      foldl_stepEdge_sou P berpo edges _ i k]
    have hfn : (fun e => cachedChiNorm P berpo
          { s with sum_over_items := fun _ _ => 0
                   sum_over_users := fun _ _ => 0
                   poisson_rate := ([] : List (ℕ × ℚ)) } e k)
        = fun e => edgeChiNorm P berpo s e k :=
      funext fun e => congrFun (hnorm e) k
    rw [hfn]
    exact zero_add _
  · rw [update_multinomial_parameters, foldl_stepEdge_poisson P berpo edges _]
    have hfn : (fun e : Edge U I => (e.2.2, cachedZ P
          { s with sum_over_items := fun _ _ => 0
                   sum_over_users := fun _ _ => 0
                   poisson_rate := ([] : List (ℕ × ℚ)) } e.1 e.2.1))
        = fun e => (e.2.2, edgeZ P s e.1 e.2.1) :=
      funext fun e => by rw [show cachedZ P
          { s with sum_over_items := fun _ _ => 0
                   sum_over_users := fun _ _ => 0
                   poisson_rate := ([] : List (ℕ × ℚ)) } e.1 e.2.1
          = cachedZ P s e.1 e.2.1 from rfl, hz]
    rw [hfn]
    exact List.nil_append _

/-- C2 witness: the allocation-step characterization instantiated on a
concrete synced state. -/
theorem C2_multinomial_allocation_witness :
    CacheSync decLib stateW ∧
    ((∀ k, (update_multinomial_parameters decLib false edges1 stateW).sum_over_items 0 k
      = ((edges1.filter (fun e => e.1 = 0)).map
          (fun e => edgeChiNorm decLib false stateW e k)).sum) ∧
    (∀ k, (update_multinomial_parameters decLib false edges1 stateW).sum_over_users 0 k
      = ((edges1.filter (fun e => e.2.1 = 0)).map
          (fun e => edgeChiNorm decLib false stateW e k)).sum) ∧
    (update_multinomial_parameters decLib false edges1 stateW).poisson_rate
      = edges1.map (fun e => (e.2.2, edgeZ decLib stateW e.1 e.2.1))) :=
  ⟨⟨rfl, rfl, rfl, rfl⟩,
   C2_multinomial_allocation decLib false edges1 stateW ⟨rfl, rfl, rfl, rfl⟩ 0 0⟩

/-! ### npIndex lemmas -/

theorem npIndex_pos (n : ℕ) (x : ℤ) (h1 : 0 ≤ x) (h2 : x < (n : ℤ)) :
    npIndex n x = .ok ⟨x.toNat, by omega⟩ := by
  unfold npIndex
  rw [dif_pos ⟨h1, h2⟩]

theorem npIndex_neg (n : ℕ) (x : ℤ) (h1 : -(n : ℤ) ≤ x) (h2 : x < 0) :
    npIndex n x = .ok ⟨(x + (n : ℤ)).toNat, by omega⟩ := by
  unfold npIndex
  rw [dif_neg (by omega), dif_pos ⟨h1, h2⟩]

theorem npIndex_oob_high (n : ℕ) (x : ℤ) (h : (n : ℤ) ≤ x) :
    npIndex n x = .error .indexError := by
  unfold npIndex
  rw [dif_neg (by omega), dif_neg (by omega)]

/-! ### Claim C7 -/

/-- C7 (amended). If the user index or the item index is omitted in a call to
`pmf`, the call returns a full U×I matrix instead of a scalar — namely the
elementwise probability evaluation (`1 - exp(-rate)` in Bernoulli-Poisson
mode, the Poisson pmf at `count` otherwise) of the rate matrix
`alpha @ beta.T`, not the rate matrix itself. -/
theorem C7_matrix_when_index_omitted (P : NumLib) {U I K : ℕ} (m : HPMF U I K)
    (A : Fin U → Fin K → ℚ) (B : Fin I → Fin K → ℚ) (user item : Option ℤ)
    (count : Option ℕ) (hA : m.alpha = some A) (hB : m.beta = some B)
    (h : user = none ∨ item = none) :
    pmf P m user item count
      = Except.ok (PmfValue.matrix (fun u i =>
          if m.berpo then 1 - P.exp (-(∑ k, A u k * B i k))
          else poissonPmf P (count.getD 1) (∑ k, A u k * B i k))) := by
  rcases h with h | h
  · subst h
    cases item <;> cases hbp : m.berpo <;> simp [pmf, hA, hB, hbp]
  · subst h
    cases user <;> cases hbp : m.berpo <;> simp [pmf, hA, hB, hbp]

/-- C7 witness: on `m7` (both factors identically 1, Bernoulli-Poisson mode)
the call with both indices omitted returns the transformed matrix. -/
theorem C7_matrix_when_index_omitted_witness :
    pmf ratLib m7 none none none
      = Except.ok (PmfValue.matrix (fun u i =>
          if m7.berpo then 1 - ratLib.exp (-(∑ k : Fin 1, (fun _ _ => (1:ℚ)) u k * (fun _ _ => (1:ℚ)) i k))
          else poissonPmf ratLib 1 (∑ k : Fin 1, (fun _ _ => (1:ℚ)) u k * (fun _ _ => (1:ℚ)) i k))) :=
  C7_matrix_when_index_omitted ratLib m7 (fun _ _ => 1) (fun _ _ => 1) none none
    none rfl rfl (Or.inl rfl)

/-- C7 counterexample: on `m7` the rate matrix `alpha @ beta.T` is identically
1, but the call with both indices omitted does not return it: it returns the
matrix of probabilities `1 - exp(-1)` (equal to `1/2` under `ratLib`, and
different from 1 for any library whose `exp` does not vanish at `-1`, as the
real exponential does not). -/
theorem C7_cex_not_rate_matrix :
    pmf ratLib m7 none none none
      ≠ Except.ok (PmfValue.matrix (fun _ _ => (1 : ℚ))) := by
  intro h
  have hval : pmf ratLib m7 none none none
      = Except.ok (PmfValue.matrix (fun _ _ => (1 : ℚ)/2)) := by
    simp only [pmf, m7, ratLib]
    norm_num
  rw [hval] at h
  have h1 := Except.ok.inj h
  have h2 := PmfValue.matrix.inj h1
  have h3 := congrFun (congrFun h2 0) 0
  norm_num at h3

/-! ### Claim C8 -/

/-- C8 (amended). Attempting to write a factor matrix before inference has
produced it surfaces a diagnostic and the write becomes a no-op
(`write_model_state` skips the corresponding output file with a warning); but
the likelihood evaluation `pmf` on a model whose factor matrices are unset
does fail hard: the call raises (an uncaught `TypeError`/`IndexError`), it
does not return a value. -/
theorem C8_unset_matrices (P : NumLib) {U I K : ℕ} (m : HPMF U I K)
    (um : Option (Fin U → String)) (im : Option (Fin I → String))
    (user item : Option ℤ) (count : Option ℕ)
    (h : m.alpha = none ∨ m.beta = none) :
    (m.alpha = none → (write_model_state m um im).1 = none
       ∧ WriteMsg.alphaUnset ∈ (write_model_state m um im).2.2) ∧
    (m.beta = none → (write_model_state m um im).2.1 = none
       ∧ WriteMsg.betaUnset ∈ (write_model_state m um im).2.2) ∧
    ∃ err, pmf P m user item count = Except.error err := by
  refine ⟨?_, ?_, ?_⟩
  · intro ha
    constructor
    · simp [write_model_state, ha]
    · simp [write_model_state, ha]
  · intro hb
    constructor
    · simp [write_model_state, hb]
    · simp [write_model_state, hb]
  · rcases h with ha | hb
    · cases user <;> cases item <;> exact ⟨PyErr.typeError, by simp [pmf, ha]⟩
    · cases user with
      | none =>
        cases item <;> cases halpha : m.alpha <;>
          exact ⟨PyErr.typeError, by simp [pmf, hb, halpha]⟩
      | some u =>
        cases item with
        | none =>
          cases halpha : m.alpha <;>
            exact ⟨PyErr.typeError, by simp [pmf, hb, halpha]⟩
        | some i =>
          cases halpha : m.alpha with
          | none => exact ⟨PyErr.typeError, by simp [pmf, halpha]⟩
          | some A =>
            cases hidx : npIndex U u with
            | error e => exact ⟨e, by simp [pmf, halpha, hidx]⟩
            | ok u' => exact ⟨PyErr.typeError, by simp [pmf, halpha, hidx, hb]⟩

/-- C8 witness: the amended statement on the fresh model `munset`. -/
theorem C8_unset_matrices_witness :
    (munset.alpha = none → (write_model_state munset none none).1 = none
       ∧ WriteMsg.alphaUnset ∈ (write_model_state munset none none).2.2) ∧
    (munset.beta = none → (write_model_state munset none none).2.1 = none
       ∧ WriteMsg.betaUnset ∈ (write_model_state munset none none).2.2) ∧
    ∃ err, pmf ratLib munset (some 0) (some 0) none = Except.error err :=
  C8_unset_matrices ratLib munset none none (some 0) (some 0) none (Or.inl rfl)

/-- C8 counterexample: calling `pmf` on a model whose factor matrices are
unset does not become a no-op — the call fails hard with a `TypeError`
(`None` is not subscriptable), with no diagnostic-and-continue path. -/
theorem C8_cex_pmf_fails_hard :
    pmf ratLib munset (some 0) (some 0) none = Except.error PyErr.typeError :=
  rfl

/-! ### Claim C9 -/

/-- C9. The claim states `simulate_model_parameters` draws the item side
symmetrically, setting each of the `nitems` rows of `beta`; the code instead
loops `for i in range(self.nusers)`.  Evaluated at `nusers = 1 < nitems = 2`
with all Gamma draws equal to 5: row 0 of `beta` is the draw 5 but row 1
stays at its `np.full` initialization 0.0 — not a strictly positive Gamma
draw; and at `nusers = 3 > nitems = 2` the simulation raises `IndexError`. -/
theorem C9_simulate_beta_loop_bound :
    ((simulate_beta m9 (fun _ => 5) (fun _ _ => 5)).map
        (fun m' => m'.beta.map (fun B => (B 0 0, B 1 0))))
      = Except.ok (some ((5 : ℚ), (0 : ℚ)))
    ∧ simulate_beta m9big (fun _ => 5) (fun _ _ => 5)
      = Except.error PyErr.indexError := by
  constructor
  · rfl
  · rfl

/-! ### Claim C10 -/

/-- C10 (amended). `pmf` range-checks neither index: any integer passes its
own validation, and for a model with computed `alpha` (U×K) and `beta` (I×K),
a negative index `-U ≤ u < 0` / `-I ≤ i < 0` is accepted and returns the same
value as the wrapped call at `U + u` / `I + i` (numpy negative indexing)
rather than being rejected; `pmf` itself raises only for non-integer indices,
but an integer index `≥ U` still raises an `IndexError` from the underlying
numpy indexing. -/
theorem C10_negative_indexing (P : NumLib) {U I K : ℕ} (m : HPMF U I K)
    (A : Fin U → Fin K → ℚ) (B : Fin I → Fin K → ℚ)
    (hA : m.alpha = some A) (hB : m.beta = some B) (u i : ℤ) (c : Option ℕ)
    (hu1 : -(U : ℤ) ≤ u) (hu2 : u < 0) (hi1 : -(I : ℤ) ≤ i) (hi2 : i < 0) :
    pmf P m (some u) (some i) c
      = pmf P m (some ((U : ℤ) + u)) (some ((I : ℤ) + i)) c
    ∧ (∃ v, pmf P m (some u) (some i) c = Except.ok v)
    ∧ (∀ u' : ℤ, (U : ℤ) ≤ u' →
        pmf P m (some u') (some i) c = Except.error PyErr.indexError) := by
  have eu : npIndex U u = npIndex U ((U : ℤ) + u) := by
    rw [npIndex_neg U u hu1 hu2, npIndex_pos U ((U : ℤ) + u) (by omega) (by omega)]
    congr 1
    apply Fin.ext
    show (u + (U : ℤ)).toNat = ((U : ℤ) + u).toNat
    omega
  have ei : npIndex I i = npIndex I ((I : ℤ) + i) := by
    rw [npIndex_neg I i hi1 hi2, npIndex_pos I ((I : ℤ) + i) (by omega) (by omega)]
    congr 1
    apply Fin.ext
    show (i + (I : ℤ)).toNat = ((I : ℤ) + i).toNat
    omega
  refine ⟨?_, ?_, ?_⟩
  · simp only [pmf, hA, hB, eu, ei]
  · rw [npIndex_neg I i hi1 hi2] at ei
    simp only [pmf, hA, hB, npIndex_neg U u hu1 hu2, npIndex_neg I i hi1 hi2]
    cases m.berpo <;> exact ⟨_, rfl⟩
  · intro u' hu'
    simp only [pmf, hA, npIndex_oob_high U u' hu']

/-- C10 witness: on the 2×2 model `m10`, `pmf(-1, -1)` equals `pmf(1, 1)` and
succeeds, while the integer index 2 raises `IndexError`. -/
theorem C10_negative_indexing_witness :
    pmf ratLib m10 (some (-1)) (some (-1)) none
      = pmf ratLib m10 (some ((2 : ℤ) + (-1))) (some ((2 : ℤ) + (-1))) none
    ∧ (∃ v, pmf ratLib m10 (some (-1)) (some (-1)) none = Except.ok v)
    ∧ (∀ u' : ℤ, (2 : ℤ) ≤ u' →
        pmf ratLib m10 (some u') (some (-1)) none
          = Except.error PyErr.indexError) :=
  C10_negative_indexing ratLib m10 (fun u _ => (u : ℚ) + 1) (fun i _ => (i : ℚ) + 3)
    rfl rfl (-1) (-1) none (by norm_num) (by norm_num) (by norm_num) (by norm_num)

/-- C10 counterexample to the original wording "only non-integer indices raise
an error": the integer index 2 on the 2-user model `m10` raises an
`IndexError` from numpy array indexing. -/
theorem C10_cex_int_index_error :
    pmf ratLib m10 (some 2) (some 0) none = Except.error PyErr.indexError :=
  rfl

/-! ### Loop lemmas -/

theorem runLoopAux_le (P : NumLib) {U I K : ℕ} (m : HPMF U I K)
    (edges : List (Edge U I)) (threshold : ℚ) (maxIts : ℕ) :
    ∀ (fuel niter : ℕ) (s : VIState U I K) (o : Option ℚ) (log : List LogMsg),
    niter ≤ maxIts →
    (runLoopAux P m edges threshold maxIts fuel niter s o log).niterations
      ≤ maxIts := by
  intro fuel
  induction fuel with
  | zero => intro niter s o log h; exact h
  | succ fuel ih =>
    intro niter s o log h
    simp only [runLoopAux]
    split_ifs <;>
      first
        | exact ih (niter + 1) _ _ _ (by omega)
        | exact (by omega : niter ≤ maxIts)

theorem runLoopAux_spec (P : NumLib) {U I K : ℕ} (m : HPMF U I K)
    (edges : List (Edge U I)) (threshold : ℚ) (maxIts : ℕ) :
    ∀ (fuel niter : ℕ) (s : VIState U I K) (o : Option ℚ) (log : List LogMsg),
    maxIts ≤ niter + fuel → niter ≤ maxIts →
    ((runLoopAux P m edges threshold maxIts fuel niter s o log).niterations = maxIts
       ∧ (runLoopAux P m edges threshold maxIts fuel niter s o log).breakEps = none) ∨
    (0 < (runLoopAux P m edges threshold maxIts fuel niter s o log).niterations
       ∧ (runLoopAux P m edges threshold maxIts fuel niter s o log).niterations < maxIts
       ∧ ∃ eps, (runLoopAux P m edges threshold maxIts fuel niter s o log).breakEps = some eps
           ∧ eps ≤ threshold
           ∧ ∃ e, (runLoopAux P m edges threshold maxIts fuel niter s o log).lastElbo = some e) := by
  intro fuel
  induction fuel with
  | zero =>
    intro niter s o log hub hlb
    exact Or.inl ⟨show niter = maxIts by omega, rfl⟩
  | succ fuel ih =>
    intro niter s o log hub hlb
    simp only [runLoopAux]
    split_ifs with h1 h2 h3 h4
    · exact Or.inr ⟨h2, h1, _, rfl, h3, _, rfl⟩
    · exact Or.inr ⟨h2, h1, _, rfl, h3, _, rfl⟩
    · exact ih (niter + 1) _ _ _ (by omega) (by omega)
    · exact ih (niter + 1) _ _ _ (by omega) (by omega)
    · exact ih (niter + 1) _ _ _ (by omega) (by omega)
    · exact Or.inl ⟨show niter = maxIts by omega, rfl⟩

/-! ### Claim C6 -/

/-- C6. For every input, `run_algorithm` terminates after at most
`max_iterations` iterations, and on termination it reports which terminal
condition was reached: the non-convergence diagnostic exactly when the
iteration budget was exhausted without the convergence break firing
(`breakEps = none`), and the convergence message carrying the iteration count
otherwise — where the break fires only with a relative ELBO change at most
the convergence threshold. -/
theorem C6_termination_and_reporting (P : NumLib) {U I K : ℕ} (m : HPMF U I K)
    (edges : List (Edge U I)) (mu_user0 : Fin U → Fin K → ℚ)
    (mu_item0 : Fin I → Fin K → ℚ) (threshold : ℚ) (maxIts : ℕ) :
    (run_algorithm P m edges mu_user0 mu_item0 threshold maxIts).2.niterations ≤ maxIts
    ∧ ((run_algorithm P m edges mu_user0 mu_item0 threshold maxIts).2.niterations = maxIts →
        (run_algorithm P m edges mu_user0 mu_item0 threshold maxIts).2.log.getLast?
          = some (LogMsg.didNotConverge maxIts)
        ∧ (run_algorithm P m edges mu_user0 mu_item0 threshold maxIts).2.breakEps = none)
    ∧ ((run_algorithm P m edges mu_user0 mu_item0 threshold maxIts).2.niterations < maxIts →
        (run_algorithm P m edges mu_user0 mu_item0 threshold maxIts).2.log.getLast?
          = some (LogMsg.converged
              (run_algorithm P m edges mu_user0 mu_item0 threshold maxIts).2.niterations
              ((run_algorithm P m edges mu_user0 mu_item0 threshold maxIts).2.lastElbo.getD 0))
        ∧ ∃ eps, (run_algorithm P m edges mu_user0 mu_item0 threshold maxIts).2.breakEps = some eps
            ∧ eps ≤ threshold) := by
  have hle := runLoopAux_le P m edges threshold maxIts maxIts 0
    (VIinit P m mu_user0 mu_item0) none [] (Nat.zero_le _)
  have hspec := runLoopAux_spec P m edges threshold maxIts maxIts 0
    (VIinit P m mu_user0 mu_item0) none [] (by omega) (Nat.zero_le _)
  have hproj_n : (run_algorithm P m edges mu_user0 mu_item0 threshold maxIts).2.niterations
      = (runLoopAux P m edges threshold maxIts maxIts 0
          (VIinit P m mu_user0 mu_item0) none []).niterations := rfl
  have hproj_b : (run_algorithm P m edges mu_user0 mu_item0 threshold maxIts).2.breakEps
      = (runLoopAux P m edges threshold maxIts maxIts 0
          (VIinit P m mu_user0 mu_item0) none []).breakEps := rfl
  have hproj_l : (run_algorithm P m edges mu_user0 mu_item0 threshold maxIts).2.lastElbo
      = (runLoopAux P m edges threshold maxIts maxIts 0
          (VIinit P m mu_user0 mu_item0) none []).lastElbo := rfl
  have hproj_log : (run_algorithm P m edges mu_user0 mu_item0 threshold maxIts).2.log
      = (runLoopAux P m edges threshold maxIts maxIts 0
          (VIinit P m mu_user0 mu_item0) none []).log ++
        (if (runLoopAux P m edges threshold maxIts maxIts 0
              (VIinit P m mu_user0 mu_item0) none []).niterations = maxIts
         then [LogMsg.didNotConverge maxIts]
         else [LogMsg.converged
            (runLoopAux P m edges threshold maxIts maxIts 0
              (VIinit P m mu_user0 mu_item0) none []).niterations
            ((runLoopAux P m edges threshold maxIts maxIts 0
              (VIinit P m mu_user0 mu_item0) none []).lastElbo.getD 0)]) := rfl
  refine ⟨by rw [hproj_n]; exact hle, ?_, ?_⟩
  · intro hmax
    rw [hproj_n] at hmax
    refine ⟨?_, ?_⟩
    · rw [hproj_log, if_pos hmax, List.getLast?_append_cons]
      rfl
    · rw [hproj_b]
      rcases hspec with ⟨_, hb⟩ | ⟨_, hlt2, _⟩
      · exact hb
      · omega
  · intro hlt
    rw [hproj_n] at hlt
    rcases hspec with ⟨hmax2, _⟩ | ⟨_, _, eps, hbe, hthr2, e, hla⟩
    · omega
    · refine ⟨?_, ?_⟩
      · rw [hproj_log, if_neg (by omega), List.getLast?_append_cons, hproj_n, hproj_l]
        rfl
      · rw [hproj_b]
        exact ⟨eps, hbe, hthr2⟩

/-- C6 witness: the termination/reporting statement at a concrete run. -/
theorem C6_termination_and_reporting_witness :
    (run_algorithm decLib m1 edges1 (fun _ _ => 1) (fun _ _ => 1) (1/100000) 5).2.niterations ≤ 5
    ∧ ((run_algorithm decLib m1 edges1 (fun _ _ => 1) (fun _ _ => 1) (1/100000) 5).2.niterations = 5 →
        (run_algorithm decLib m1 edges1 (fun _ _ => 1) (fun _ _ => 1) (1/100000) 5).2.log.getLast?
          = some (LogMsg.didNotConverge 5)
        ∧ (run_algorithm decLib m1 edges1 (fun _ _ => 1) (fun _ _ => 1) (1/100000) 5).2.breakEps = none)
    ∧ ((run_algorithm decLib m1 edges1 (fun _ _ => 1) (fun _ _ => 1) (1/100000) 5).2.niterations < 5 →
        (run_algorithm decLib m1 edges1 (fun _ _ => 1) (fun _ _ => 1) (1/100000) 5).2.log.getLast?
          = some (LogMsg.converged
              (run_algorithm decLib m1 edges1 (fun _ _ => 1) (fun _ _ => 1) (1/100000) 5).2.niterations
              ((run_algorithm decLib m1 edges1 (fun _ _ => 1) (fun _ _ => 1) (1/100000) 5).2.lastElbo.getD 0))
        ∧ ∃ eps, (run_algorithm decLib m1 edges1 (fun _ _ => 1) (fun _ _ => 1) (1/100000) 5).2.breakEps = some eps
            ∧ eps ≤ 1/100000) :=
  C6_termination_and_reporting decLib m1 edges1 (fun _ _ => 1) (fun _ _ => 1)
    (1/100000) 5

/-! ### Claim C1 -/

/-- C1 (amended). Whenever the ELBO computed at an iteration `niter ≥ 1` is
lower than the previous iteration's ELBO (negative relative change), the
engine emits the non-fatal "ELBO is decreasing" diagnostic — but the loop does
not continue to the next iteration: since a negative relative change is at
most any non-negative convergence threshold, the convergence test
`eps ≤ threshold` fires at that same iteration and the loop stops there,
reported as convergence.  An ELBO decrease therefore halts the algorithm
before `max_iterations` whenever the threshold is non-negative. -/
theorem C1_elbo_decrease_reports_and_halts (P : NumLib) {U I K : ℕ}
    (m : HPMF U I K) (edges : List (Edge U I)) (threshold : ℚ)
    (maxIts fuel niter : ℕ) (s : VIState U I K) (old : ℚ) (log : List LogMsg)
    (hn : niter < maxIts) (h0 : 0 < niter) (hthr : 0 ≤ threshold)
    (hdec : change_in_elbo old
      (elbo P m (update_multinomial_parameters P m.berpo edges s)) < 0) :
    runLoopAux P m edges threshold maxIts (fuel + 1) niter s (some old) log
      = ⟨update_multinomial_parameters P m.berpo edges s, niter,
         some (elbo P m (update_multinomial_parameters P m.berpo edges s)),
         some (change_in_elbo old
           (elbo P m (update_multinomial_parameters P m.berpo edges s))),
         log ++ [LogMsg.iterationNumber niter, LogMsg.elboDecreasing]⟩ := by
  have hle : change_in_elbo old
      (elbo P m (update_multinomial_parameters P m.berpo edges s)) ≤ threshold :=
    le_trans hdec.le hthr
  simp only [runLoopAux, Option.getD_some, if_pos hn, if_pos h0]
  rw [if_pos hle, if_pos hdec]
  simp

/-- Value of the ELBO computed at iteration 0 of the `decLib` run on `m1`
with the single edge `edges1` and all-ones initial rate draws. -/
theorem elbo_iter0_value :
    elbo decLib m1 (update_multinomial_parameters decLib m1.berpo edges1
      (VIinit decLib m1 (fun _ _ => 1) (fun _ _ => 1))) = -19 := by
  norm_num [elbo, elbo_theta_terms, elbo_user_terms, elbo_item_terms,
    elbo_hp_user_terms, elbo_hp_item_terms, update_multinomial_parameters,
    stepEdge, cachedChi, cachedZ, cachedChiNorm, VIinit, m1, edges1, decLib,
    Fin.sum_univ_succ]

/-- Value of the ELBO computed at iteration 1 of the same run: it has
decreased from −19 to −24. -/
theorem elbo_iter1_value :
    elbo decLib m1 (update_multinomial_parameters decLib m1.berpo edges1 stateW)
      = -24 := by
  norm_num [elbo, elbo_theta_terms, elbo_user_terms, elbo_item_terms,
    elbo_hp_user_terms, elbo_hp_item_terms, update_multinomial_parameters,
    stepEdge, cachedChi, cachedZ, cachedChiNorm, stateW,
    update_user_parameters, update_item_parameters, VIinit, m1, edges1, decLib,
    Fin.sum_univ_succ]

/-- C1 witness: the report-and-halt behaviour at the concrete decreasing
iteration of the `decLib` run (previous ELBO −19, new ELBO −24). -/
theorem C1_elbo_decrease_reports_and_halts_witness :
    change_in_elbo (-19)
      (elbo decLib m1 (update_multinomial_parameters decLib m1.berpo edges1 stateW)) < 0
    ∧ runLoopAux decLib m1 edges1 (1/100000) 5 4 1 stateW (some (-19))
        [LogMsg.iterationNumber 0]
      = ⟨update_multinomial_parameters decLib m1.berpo edges1 stateW, 1,
         some (elbo decLib m1 (update_multinomial_parameters decLib m1.berpo edges1 stateW)),
         some (change_in_elbo (-19)
           (elbo decLib m1 (update_multinomial_parameters decLib m1.berpo edges1 stateW))),
         [LogMsg.iterationNumber 0] ++ [LogMsg.iterationNumber 1, LogMsg.elboDecreasing]⟩ := by
  have hdec : change_in_elbo (-19)
      (elbo decLib m1 (update_multinomial_parameters decLib m1.berpo edges1 stateW)) < 0 := by
    rw [elbo_iter1_value]
    norm_num [change_in_elbo]
  exact ⟨hdec,
    C1_elbo_decrease_reports_and_halts decLib m1 edges1 (1/100000) 5 4 1 stateW
      (-19) [LogMsg.iterationNumber 0] (by norm_num) (by norm_num) (by norm_num)
      hdec⟩

/-- C1 counterexample to "an ELBO decrease never by itself halts the algorithm
before max_iterations is reached": in the concrete `decLib` run with a
two-iteration budget, the ELBO decreases at iteration 1 (the diagnostic is
emitted) and the loop stops right there — after one iteration, before the
budget, reported as convergence — because the negative relative change passes
the `eps ≤ threshold` test. -/
theorem C1_cex_decrease_halts_loop :
    LogMsg.elboDecreasing
      ∈ (run_algorithm decLib m1 edges1 (fun _ _ => 1) (fun _ _ => 1) (1/100000) 2).2.log
    ∧ (run_algorithm decLib m1 edges1 (fun _ _ => 1) (fun _ _ => 1) (1/100000) 2).2.niterations = 1
    ∧ (run_algorithm decLib m1 edges1 (fun _ _ => 1) (fun _ _ => 1) (1/100000) 2).2.niterations < 2
    ∧ (run_algorithm decLib m1 edges1 (fun _ _ => 1) (fun _ _ => 1) (1/100000) 2).2.log.getLast?
      = some (LogMsg.converged 1 (-24)) := by
  have heps : change_in_elbo
      (elbo decLib m1 (update_multinomial_parameters decLib m1.berpo edges1
        (VIinit decLib m1 (fun _ _ => 1) (fun _ _ => 1))))
      (elbo decLib m1 (update_multinomial_parameters decLib m1.berpo edges1 stateW))
      = -5/19 := by
    rw [elbo_iter0_value, elbo_iter1_value]
    norm_num [change_in_elbo]
  have hloop : runLoopAux decLib m1 edges1 (1/100000) 2 2 0
      (VIinit decLib m1 (fun _ _ => 1) (fun _ _ => 1)) none []
      = ⟨update_multinomial_parameters decLib m1.berpo edges1 stateW, 1,
         some (-24), some (-5/19),
         [LogMsg.iterationNumber 0, LogMsg.iterationNumber 1,
          LogMsg.elboDecreasing]⟩ := by
    have hstep : runLoopAux decLib m1 edges1 (1/100000) 2 2 0
        (VIinit decLib m1 (fun _ _ => 1) (fun _ _ => 1)) none []
        = runLoopAux decLib m1 edges1 (1/100000) 2 (0 + 1) 1 stateW
            (some (elbo decLib m1 (update_multinomial_parameters decLib m1.berpo edges1
              (VIinit decLib m1 (fun _ _ => 1) (fun _ _ => 1)))))
            [LogMsg.iterationNumber 0] := rfl
    rw [hstep]
    simp only [runLoopAux, Option.getD_some]
    rw [if_pos (show (1:ℕ) < 2 by norm_num), if_pos (show (0:ℕ) < 1 by norm_num)]
    simp only [heps]
    simp only [elbo_iter1_value]
    norm_num
  have hw : (run_algorithm decLib m1 edges1 (fun _ _ => 1) (fun _ _ => 1) (1/100000) 2).2
      = { (runLoopAux decLib m1 edges1 (1/100000) 2 2 0
            (VIinit decLib m1 (fun _ _ => 1) (fun _ _ => 1)) none []) with
          log := (runLoopAux decLib m1 edges1 (1/100000) 2 2 0
              (VIinit decLib m1 (fun _ _ => 1) (fun _ _ => 1)) none []).log ++
            (if (runLoopAux decLib m1 edges1 (1/100000) 2 2 0
                  (VIinit decLib m1 (fun _ _ => 1) (fun _ _ => 1)) none []).niterations = 2
             then [LogMsg.didNotConverge 2]
             else [LogMsg.converged
                (runLoopAux decLib m1 edges1 (1/100000) 2 2 0
                  (VIinit decLib m1 (fun _ _ => 1) (fun _ _ => 1)) none []).niterations
                ((runLoopAux decLib m1 edges1 (1/100000) 2 2 0
                  (VIinit decLib m1 (fun _ _ => 1) (fun _ _ => 1)) none []).lastElbo.getD 0)]) } := rfl
  have hrun : (run_algorithm decLib m1 edges1 (fun _ _ => 1) (fun _ _ => 1) (1/100000) 2).2
      = ⟨update_multinomial_parameters decLib m1.berpo edges1 stateW, 1,
         some (-24), some (-5/19),
         [LogMsg.iterationNumber 0, LogMsg.iterationNumber 1,
          LogMsg.elboDecreasing, LogMsg.converged 1 (-24)]⟩ := by
    rw [hw, hloop]
    norm_num
  rw [hrun]
  refine ⟨by simp, rfl, by norm_num, rfl⟩

/-! ### Positivity lemmas -/

theorem pos_VIinit (P : NumLib) {U I K : ℕ} (m : HPMF U I K)
    (mu_user0 : Fin U → Fin K → ℚ) (mu_item0 : Fin I → Fin K → ℚ)
    (hm : PosPriors m) (h0u : ∀ u k, 0 < mu_user0 u k)
    (h0i : ∀ i k, 0 < mu_item0 i k) :
    PosState (VIinit P m mu_user0 mu_item0) := by
  obtain ⟨ha, hb, hza, hzb, hra, hrb⟩ := hm
  refine ⟨fun u k => h0u u k, fun i k => h0i i k, fun u => hra, fun i => hrb,
    fun u k => ha, fun i k => hb, fun u k => le_refl 0, fun i k => le_refl 0,
    ?_, ?_⟩
  · show 0 < m.zeta_alpha_shape_prior + (K : ℚ) * m.alpha_shape_prior
    have hK : (0:ℚ) ≤ (K : ℚ) * m.alpha_shape_prior :=
      mul_nonneg (Nat.cast_nonneg K) ha.le
    linarith
  · show 0 < m.zeta_beta_shape_prior + (K : ℚ) * m.beta_shape_prior
    have hK : (0:ℚ) ≤ (K : ℚ) * m.beta_shape_prior :=
      mul_nonneg (Nat.cast_nonneg K) hb.le
    linarith

theorem pos_stepEdge (P : NumLib) {U I K : ℕ} (b : Bool) (s : VIState U I K)
    (e : Edge U I) (hexp : ExpPos P) (hxm : Expm1NegOnNeg P)
    (hs : PosState s) : PosState (stepEdge P b s e) := by
  obtain ⟨hmu, hmi, hxu, hxi, hlu, hli, hsoi, hsou, hnu, hni⟩ := hs
  have hchipos : ∀ k, 0 < cachedChi P s e.1 e.2.1 k := fun k => hexp _
  have hZpos : ∀ _k : Fin K, 0 < cachedZ P s e.1 e.2.1 := fun k =>
    Finset.sum_pos (fun j _ => hchipos j) ⟨k, Finset.mem_univ k⟩
  have hnorm : ∀ k, 0 ≤ cachedChiNorm P b s e k := by
    intro k
    cases b with
    | false =>
      show 0 ≤ cachedChi P s e.1 e.2.1 k / cachedZ P s e.1 e.2.1 * (e.2.2 : ℚ)
      exact mul_nonneg (div_pos (hchipos k) (hZpos k)).le (Nat.cast_nonneg _)
    | true =>
      show 0 ≤ cachedChi P s e.1 e.2.1 k / (-P.expm1 (-cachedZ P s e.1 e.2.1))
      have hneg : -cachedZ P s e.1 e.2.1 < 0 := neg_neg_of_pos (hZpos k)
      have hdenpos : 0 < -P.expm1 (-cachedZ P s e.1 e.2.1) :=
        neg_pos.mpr (hxm _ hneg)
      exact (div_pos (hchipos k) hdenpos).le
  refine ⟨hmu, hmi, hxu, hxi, hlu, hli, ?_, ?_, hnu, hni⟩
  · intro u k
    show 0 ≤ (if u = e.1 then s.sum_over_items u k + cachedChiNorm P b s e k
              else s.sum_over_items u k)
    split_ifs
    · exact add_nonneg (hsoi u k) (hnorm k)
    · exact hsoi u k
  · intro i k
    show 0 ≤ (if i = e.2.1 then s.sum_over_users i k + cachedChiNorm P b s e k
              else s.sum_over_users i k)
    split_ifs
    · exact add_nonneg (hsou i k) (hnorm k)
    · exact hsou i k

theorem pos_foldl_stepEdge (P : NumLib) {U I K : ℕ} (b : Bool)
    (hexp : ExpPos P) (hxm : Expm1NegOnNeg P) (edges : List (Edge U I)) :
    ∀ s : VIState U I K, PosState s →
    PosState (edges.foldl (stepEdge P b) s) := by
  induction edges with
  | nil => intro s hs; exact hs
  | cons e es ih =>
    intro s hs
    exact ih (stepEdge P b s e) (pos_stepEdge P b s e hexp hxm hs)

theorem pos_update_multinomial (P : NumLib) {U I K : ℕ} (b : Bool)
    (edges : List (Edge U I)) (s : VIState U I K) (hexp : ExpPos P)
    (hxm : Expm1NegOnNeg P) (hs : PosState s) :
    PosState (update_multinomial_parameters P b edges s) := by
  obtain ⟨hmu, hmi, hxu, hxi, hlu, hli, hsoi, hsou, hnu, hni⟩ := hs
  exact pos_foldl_stepEdge P b hexp hxm edges _
    ⟨hmu, hmi, hxu, hxi, hlu, hli, fun _ _ => le_refl 0, fun _ _ => le_refl 0,
     hnu, hni⟩

theorem pos_update_user (P : NumLib) {U I K : ℕ} (m : HPMF U I K)
    (s : VIState U I K) (hm : PosPriors m) (hs : PosState s) :
    PosState (update_user_parameters P m s) := by
  obtain ⟨ha, hb, hza, hzb, hra, hrb⟩ := hm
  obtain ⟨hmu, hmi, hxu, hxi, hlu, hli, hsoi, hsou, hnu, hni⟩ := hs
  have hlu2 : ∀ (u : Fin U) (k : Fin K),
      0 < m.alpha_shape_prior + s.sum_over_items u k := fun u k =>
    add_pos_of_pos_of_nonneg ha (hsoi u k)
  have hmu2 : ∀ (u : Fin U) (k : Fin K),
      0 < s.nu_user / s.xi_user u + ∑ i, s.lambda_item i k / s.mu_item i k :=
    fun u k =>
    add_pos_of_pos_of_nonneg (div_pos hnu (hxu u))
      (Finset.sum_nonneg fun i _ => (div_pos (hli i k) (hmi i k)).le)
  refine ⟨hmu2, hmi, ?_, hxi, hlu2, hli, hsoi, hsou, hnu, hni⟩
  intro u
  show 0 < m.zeta_alpha_rate_prior
    + ∑ k, (m.alpha_shape_prior + s.sum_over_items u k)
        / (s.nu_user / s.xi_user u + ∑ i, s.lambda_item i k / s.mu_item i k)
  exact add_pos_of_pos_of_nonneg hra
    (Finset.sum_nonneg fun k _ => (div_pos (hlu2 u k) (hmu2 u k)).le)

theorem pos_update_item (P : NumLib) {U I K : ℕ} (m : HPMF U I K)
    (s : VIState U I K) (hm : PosPriors m) (hs : PosState s) :
    PosState (update_item_parameters P m s) := by
  obtain ⟨ha, hb, hza, hzb, hra, hrb⟩ := hm
  obtain ⟨hmu, hmi, hxu, hxi, hlu, hli, hsoi, hsou, hnu, hni⟩ := hs
  have hli2 : ∀ (i : Fin I) (k : Fin K),
      0 < m.beta_shape_prior + s.sum_over_users i k := fun i k =>
    add_pos_of_pos_of_nonneg hb (hsou i k)
  have hmi2 : ∀ (i : Fin I) (k : Fin K),
      0 < s.nu_item / s.xi_item i + ∑ u, s.lambda_user u k / s.mu_user u k :=
    fun i k =>
    add_pos_of_pos_of_nonneg (div_pos hni (hxi i))
      (Finset.sum_nonneg fun u _ => (div_pos (hlu u k) (hmu u k)).le)
  refine ⟨hmu, hmi2, hxu, ?_, hlu, hli2, hsoi, hsou, hnu, hni⟩
  intro i
  show 0 < m.zeta_beta_rate_prior
    + ∑ k, (m.beta_shape_prior + s.sum_over_users i k)
        / (s.nu_item / s.xi_item i + ∑ u, s.lambda_user u k / s.mu_user u k)
  exact add_pos_of_pos_of_nonneg hrb
    (Finset.sum_nonneg fun k _ => (div_pos (hli2 i k) (hmi2 i k)).le)

theorem pos_runLoopAux (P : NumLib) {U I K : ℕ} (m : HPMF U I K)
    (edges : List (Edge U I)) (threshold : ℚ) (maxIts : ℕ)
    (hm : PosPriors m) (hexp : ExpPos P) (hxm : Expm1NegOnNeg P) :
    ∀ (fuel niter : ℕ) (s : VIState U I K) (o : Option ℚ) (log : List LogMsg),
    PosState s →
    PosState (runLoopAux P m edges threshold maxIts fuel niter s o log).state := by
  intro fuel
  induction fuel with
  | zero => intro niter s o log hs; exact hs
  | succ fuel ih =>
    intro niter s o log hs
    simp only [runLoopAux]
    split_ifs <;>
      first
        | exact ih (niter + 1) _ _ _
            (pos_update_item P m _ hm (pos_update_user P m _ hm
              (pos_update_multinomial P m.berpo edges s hexp hxm hs)))
        | exact pos_update_multinomial P m.berpo edges s hexp hxm hs
        | exact hs

/-! ### Claim C4 -/

/-- C4. For every valid edge set and strictly positive hyper-parameters (and
strictly positive initial Gamma draws for the rate parameters, as the Gamma
distribution produces), every entry of `mu_user`, `mu_item`, `xi_user` and
`xi_item` — together with the `lambda` shapes and `nu` constants — is strictly
positive at initialization, each of the three update steps preserves this
positivity from any state enjoying it (hence it holds after every update of
every iteration), and the state in which `run_algorithm` terminates is
positive; so no division by a zero `mu` (or zero `xi`) ever occurs inside the
engine.  The analytic facts used about the numeric library are that `exp` is
strictly positive and `expm1` is negative on negatives. -/
theorem C4_positivity (P : NumLib) {U I K : ℕ} (m : HPMF U I K)
    (edges : List (Edge U I)) (mu_user0 : Fin U → Fin K → ℚ)
    (mu_item0 : Fin I → Fin K → ℚ) (threshold : ℚ) (maxIts : ℕ)
    (hm : PosPriors m) (hexp : ExpPos P) (hxm : Expm1NegOnNeg P)
    (h0u : ∀ u k, 0 < mu_user0 u k) (h0i : ∀ i k, 0 < mu_item0 i k) :
    PosState (VIinit P m mu_user0 mu_item0)
    ∧ (∀ s : VIState U I K, PosState s →
        PosState (update_multinomial_parameters P m.berpo edges s))
    ∧ (∀ s : VIState U I K, PosState s →
        PosState (update_user_parameters P m s))
    ∧ (∀ s : VIState U I K, PosState s →
        PosState (update_item_parameters P m s))
    ∧ PosState (run_algorithm P m edges mu_user0 mu_item0 threshold maxIts).2.state :=
  ⟨pos_VIinit P m mu_user0 mu_item0 hm h0u h0i,
   fun s hs => pos_update_multinomial P m.berpo edges s hexp hxm hs,
   fun s hs => pos_update_user P m s hm hs,
   fun s hs => pos_update_item P m s hm hs,
   pos_runLoopAux P m edges threshold maxIts hm hexp hxm maxIts 0 _ none []
     (pos_VIinit P m mu_user0 mu_item0 hm h0u h0i)⟩

/-- C4 witness: positivity of the whole pipeline at a concrete model, edge
set, library and initial draws. -/
theorem C4_positivity_witness :
    PosState (VIinit ratLib m1 (fun _ _ => 1) (fun _ _ => 1))
    ∧ (∀ s : VIState 1 1 1, PosState s →
        PosState (update_multinomial_parameters ratLib m1.berpo edges1 s))
    ∧ (∀ s : VIState 1 1 1, PosState s →
        PosState (update_user_parameters ratLib m1 s))
    ∧ (∀ s : VIState 1 1 1, PosState s →
        PosState (update_item_parameters ratLib m1 s))
    ∧ PosState (run_algorithm ratLib m1 edges1 (fun _ _ => 1) (fun _ _ => 1) (1/100000) 5).2.state :=
  C4_positivity ratLib m1 edges1 (fun _ _ => 1) (fun _ _ => 1) (1/100000) 5
    (by refine ⟨?_, ?_, ?_, ?_, ?_, ?_⟩ <;> norm_num [m1])
    (fun x => by norm_num [ratLib])
    (fun x hx => hx)
    (fun _ _ => one_pos)
    (fun _ _ => one_pos)


/-- C5 witness: the writeback/frame equality at a concrete run. -/
theorem C5_writeback_frame_witness :
    (run_algorithm ratLib m1 edges1 (fun _ _ => 1) (fun _ _ => 1) (1/100000) 5).1
      = { m1 with
          alpha := some (fun u k =>
            (run_algorithm ratLib m1 edges1 (fun _ _ => 1) (fun _ _ => 1) (1/100000) 5).2.state.lambda_user u k
              / (run_algorithm ratLib m1 edges1 (fun _ _ => 1) (fun _ _ => 1) (1/100000) 5).2.state.mu_user u k)
          beta := some (fun i k =>
            (run_algorithm ratLib m1 edges1 (fun _ _ => 1) (fun _ _ => 1) (1/100000) 5).2.state.lambda_item i k
              / (run_algorithm ratLib m1 edges1 (fun _ _ => 1) (fun _ _ => 1) (1/100000) 5).2.state.mu_item i k) } :=
  C5_writeback_frame ratLib m1 edges1 (fun _ _ => 1) (fun _ _ => 1) (1/100000) 5

end PmfRepo
